import Mathlib

/-!
Verification development for a multi-vendor MCP server workspace.

The repository contains three vendor clients sharing one pattern:
OAuth2 client-credentials token caching with expiry, an authenticated
request dispatcher, and an API-schema introspection engine (overview,
filtered endpoint details, keyword search, schema listing, path
categorization).  The definitions below are shallow embeddings of the
TypeScript source: pure functions and loops are translated directly;
network effects (fetch, JSON.parse) are modelled as explicit response
values and parse oracles; the async interleaving of `ensureAuthenticated`
is modelled as a small step system with one yield point at the awaited
token fetch.  Machine time is modelled as `Int` milliseconds (JavaScript
`Date.now()` / `Date` comparisons).
-/

namespace Spec2Proof

/-! ## String helpers: JavaScript `String.prototype.includes`, lower-casing,
whitespace split (`split(/\s+/)`), as used throughout the source. -/

/-- True when `needle` is an initial run of `hay` (helper for substring search). -/
def charsLeads : List Char → List Char → Bool
  | [], _ => true
  | _ :: _, [] => false
  | a :: as, b :: bs => a == b && charsLeads as bs

/-- True when `needle` occurs contiguously inside `hay`
(JavaScript `hay.includes(needle)`); the empty needle always occurs. -/
def charsHasSub : List Char → List Char → Bool
  | [], needle => needle.isEmpty
  | h :: t, needle => charsLeads needle (h :: t) || charsHasSub t needle

/-- JavaScript `hay.includes(needle)`. -/
def strHasSub (hay needle : String) : Bool :=
  charsHasSub hay.toList needle.toList

/-- JavaScript `toLowerCase` (character-wise lowering; the repository's
schema/path text is ASCII, where this agrees with JavaScript). -/
def toLowerStr (s : String) : String := String.mk (s.toList.map Char.toLower)

/-- JavaScript `toUpperCase` (character-wise). -/
def toUpperStr (s : String) : String := String.mk (s.toList.map Char.toUpper)

/-- Case-insensitive containment:
`hay.toLowerCase().includes(needle.toLowerCase())`. -/
def strHasSubCI (hay needle : String) : Bool :=
  strHasSub (toLowerStr hay) (toLowerStr needle)

/-! ## Token lifecycle (C1, C6)

`NinjaOneClient.ensureAuthenticated`/`authenticate` (ninjaone client),
`ConnectWiseRMMClient.authenticate` (connectwise client) and
`HaloPSAClient.authenticate` (halopsa-reporting client) all keep
`accessToken : string | null` and `tokenExpiry : Date | null` and guard the
token exchange with
`this.accessToken && this.tokenExpiry && now-comparison`. -/

/-- Shape of the token endpoint's JSON body (`access_token`, `expires_in`). -/
structure TokenResponse where
  access_token : String
  expires_in : Nat

/-- The two mutable fields of each vendor client
(`accessToken : string | null`, `tokenExpiry : Date | null`). -/
structure TokenState where
  accessToken : Option String := none
  tokenExpiry : Option Int := none

/-- JavaScript truthiness of `this.accessToken` (null or empty string is falsy). -/
def tokenTruthy : Option String → Bool
  | none => false
  | some s => !(s == "")

/-- JavaScript `this.tokenExpiry && this.tokenExpiry > new Date()`
(equivalently `new Date() < this.tokenExpiry` in the connectwise client):
true when an expiry is cached and the current instant is strictly before it. -/
def expiryAfterNow : Option Int → Int → Bool
  | none, _ => false
  | some e, now => decide (now < e)

/-- The shared cached-token guard
`this.accessToken && this.tokenExpiry && this.tokenExpiry > new Date()`. -/
def cachedTokenValid (s : TokenState) (now : Int) : Bool :=
  tokenTruthy s.accessToken && expiryAfterNow s.tokenExpiry now

/-- `NinjaOneClient.authenticate` success path: caches the token and
`expiryTime = now + (expires_in - 60) seconds` (via `setSeconds`). -/
def ninjaAuthenticate (now : Int) (tr : TokenResponse) : TokenState :=
  { accessToken := some tr.access_token
    tokenExpiry := some (now + ((tr.expires_in : Int) - 60) * 1000) }

/-- `NinjaOneClient.ensureAuthenticated`: return untouched (no exchange) when
the cached token is valid, otherwise authenticate.  The boolean records
whether a token exchange was performed. -/
def ninjaEnsureAuthenticated (s : TokenState) (now : Int) (tr : TokenResponse) :
    TokenState × Bool :=
  if cachedTokenValid s now then (s, false) else (ninjaAuthenticate now tr, true)

/-- `ConnectWiseRMMClient.authenticate` success path: caches the token and
`tokenExpiry = new Date(Date.now() + expires_in * 1000)` — note: no 60 second
safety margin is subtracted. -/
def cwRefreshToken (now : Int) (tr : TokenResponse) : TokenState :=
  { accessToken := some tr.access_token
    tokenExpiry := some (now + (tr.expires_in : Int) * 1000) }

/-- `ConnectWiseRMMClient.authenticate`: the validity guard is at the top of
`authenticate` itself (`if (this.accessToken && this.tokenExpiry &&
new Date() < this.tokenExpiry) return;`). -/
def cwAuthenticate (s : TokenState) (now : Int) (tr : TokenResponse) :
    TokenState × Bool :=
  if cachedTokenValid s now then (s, false) else (cwRefreshToken now tr, true)

/-- `HaloPSAClient.authenticate` success path (halopsa-reporting client):
`expiryMs = (expires_in - 60) * 1000; tokenExpiry = new Date(Date.now() + expiryMs)`. -/
def haloRefreshToken (now : Int) (tr : TokenResponse) : TokenState :=
  { accessToken := some tr.access_token
    tokenExpiry := some (now + ((tr.expires_in : Int) - 60) * 1000) }

/-- `HaloPSAClient.authenticate`: guard at the top, then exchange. -/
def haloAuthenticate (s : TokenState) (now : Int) (tr : TokenResponse) :
    TokenState × Bool :=
  if cachedTokenValid s now then (s, false) else (haloRefreshToken now tr, true)

/-! ## Two-caller interleaving model of `ensureAuthenticated` (C6)

Each caller of `ensureAuthenticated` runs two atomic phases separated by the
awaited token fetch: phase 0 evaluates the cached-token guard against the
shared state; phase 1 (reached only when the guard failed) performs the
exchange and writes the shared token.  Program counter 2 means finished.
A schedule is the order in which the cooperative scheduler runs the two
callers' pending phases. -/

/-- Shared state plus each caller's program counter and the count of
token-endpoint exchanges performed. -/
structure MpState where
  token : TokenState
  exchanges : Nat
  pc1 : Nat
  pc2 : Nat

/-- One atomic phase of one caller of `ensureAuthenticated`. -/
def callerStep (now : Int) (tr : TokenResponse) (pc : Nat) (tok : TokenState)
    (ex : Nat) : Nat × TokenState × Nat :=
  if pc = 0 then
    if cachedTokenValid tok now then (2, tok, ex) else (1, tok, ex)
  else if pc = 1 then (2, ninjaAuthenticate now tr, ex + 1)
  else (pc, tok, ex)

/-- Run one phase of the chosen caller (`false` = first, `true` = second). -/
def sysStep (now : Int) (tr : TokenResponse) (g : MpState) (second : Bool) :
    MpState :=
  if second then
    let r := callerStep now tr g.pc2 g.token g.exchanges
    { g with pc2 := r.1, token := r.2.1, exchanges := r.2.2 }
  else
    let r := callerStep now tr g.pc1 g.token g.exchanges
    { g with pc1 := r.1, token := r.2.1, exchanges := r.2.2 }

/-- Run a schedule of caller phases. -/
def runSched (now : Int) (tr : TokenResponse) : List Bool → MpState → MpState
  | [], g => g
  | w :: ws, g => runSched now tr ws (sysStep now tr g w)

/-- Both callers about to enter `ensureAuthenticated`, no cached token. -/
def mpInit : MpState := ⟨{}, 0, 0, 0⟩

/-- Counts a caller as a potential past exchange once it has finished. -/
def pcDone (pc : Nat) : Nat := if pc = 2 then 1 else 0

lemma callerStep_bound (now : Int) (tr : TokenResponse) (pc : Nat)
    (tok : TokenState) (ex : Nat) :
    (callerStep now tr pc tok ex).2.2 + pcDone pc ≤
      ex + pcDone (callerStep now tr pc tok ex).1 := by
  by_cases h0 : pc = 0
  · subst h0
    simp only [callerStep]
    split_ifs <;> simp [pcDone]
  · by_cases h1 : pc = 1
    · subst h1
      simp [callerStep, pcDone]
    · simp [callerStep, h0, h1, pcDone]

lemma sysStep_exchange_bound (now : Int) (tr : TokenResponse) (g : MpState)
    (w : Bool) (h : g.exchanges ≤ pcDone g.pc1 + pcDone g.pc2) :
    (sysStep now tr g w).exchanges ≤
      pcDone (sysStep now tr g w).pc1 + pcDone (sysStep now tr g w).pc2 := by
  cases w
  · have hc := callerStep_bound now tr g.pc1 g.token g.exchanges
    simp [sysStep]
    omega
  · have hc := callerStep_bound now tr g.pc2 g.token g.exchanges
    simp [sysStep]
    omega

lemma runSched_exchange_bound (now : Int) (tr : TokenResponse) :
    ∀ (ws : List Bool) (g : MpState),
      g.exchanges ≤ pcDone g.pc1 + pcDone g.pc2 →
      (runSched now tr ws g).exchanges ≤
        pcDone (runSched now tr ws g).pc1 + pcDone (runSched now tr ws g).pc2
  | [], _, h => h
  | w :: ws, g, h =>
      runSched_exchange_bound now tr ws (sysStep now tr g w)
        (sysStep_exchange_bound now tr g w h)

lemma pcDone_le_one (pc : Nat) : pcDone pc ≤ 1 := by
  simp only [pcDone]
  split_ifs <;> omega

/-- Claim C1 (amended).  For the NinjaOne and HaloPSA clients the claim holds:
a valid cached token is returned with no token exchange; otherwise one
exchange caches `expiry = now + (expires_in - 60) * 1000` ms, the token is
treated as invalid exactly at `issuedAt + (expires_in - 60)` seconds and as
valid at any strictly earlier instant.  The ConnectWise client instead caches
`expiry = now + expires_in * 1000` with no 60-second safety margin, so its
token stays valid strictly up to `issuedAt + expires_in` seconds. -/
theorem tokenExpiryBoundary :
    (∀ s now tr, cachedTokenValid s now = true →
        ninjaEnsureAuthenticated s now tr = (s, false) ∧
        haloAuthenticate s now tr = (s, false) ∧
        cwAuthenticate s now tr = (s, false))
  ∧ (∀ s now tr, cachedTokenValid s now = false →
        (ninjaEnsureAuthenticated s now tr).2 = true ∧
        (ninjaEnsureAuthenticated s now tr).1.tokenExpiry =
          some (now + ((tr.expires_in : Int) - 60) * 1000) ∧
        (haloAuthenticate s now tr).1.tokenExpiry =
          some (now + ((tr.expires_in : Int) - 60) * 1000) ∧
        (cwAuthenticate s now tr).1.tokenExpiry =
          some (now + (tr.expires_in : Int) * 1000))
  ∧ (∀ issuedAt tr,
        cachedTokenValid (ninjaAuthenticate issuedAt tr)
          (issuedAt + ((tr.expires_in : Int) - 60) * 1000) = false)
  ∧ (∀ issuedAt tr t, tr.access_token ≠ "" →
        t < issuedAt + ((tr.expires_in : Int) - 60) * 1000 →
        cachedTokenValid (ninjaAuthenticate issuedAt tr) t = true)
  ∧ (∀ issuedAt tr,
        cachedTokenValid (cwRefreshToken issuedAt tr)
          (issuedAt + (tr.expires_in : Int) * 1000) = false)
  ∧ (∀ issuedAt tr t, tr.access_token ≠ "" →
        t < issuedAt + (tr.expires_in : Int) * 1000 →
        cachedTokenValid (cwRefreshToken issuedAt tr) t = true) := by
  refine ⟨?_, ?_, ?_, ?_, ?_, ?_⟩
  · intro s now tr h
    simp [ninjaEnsureAuthenticated, haloAuthenticate, cwAuthenticate, h]
  · intro s now tr h
    simp [ninjaEnsureAuthenticated, haloAuthenticate, cwAuthenticate, h,
      ninjaAuthenticate, haloRefreshToken, cwRefreshToken]
  · intro issuedAt tr
    simp [cachedTokenValid, ninjaAuthenticate, expiryAfterNow]
  · intro issuedAt tr t htok ht
    simp [cachedTokenValid, ninjaAuthenticate, expiryAfterNow, tokenTruthy, htok, ht]
  · intro issuedAt tr
    simp [cachedTokenValid, cwRefreshToken, expiryAfterNow]
  · intro issuedAt tr t htok ht
    simp [cachedTokenValid, cwRefreshToken, expiryAfterNow, tokenTruthy, htok, ht]

/-- Claim C1 counterexample.  A ConnectWise token granted at time 0 with
`expires_in = 120` is cached with expiry `120000` ms (not `now + E - 60` s =
`60000` ms), is still treated as valid at `issuedAt + E - 60` s, and a call to
`authenticate` at that instant performs no exchange — contradicting the claim
that every client treats the token as invalid there. -/
theorem tokenExpiryBoundary_cex :
    (cwAuthenticate {} 0 ⟨"tok", 120⟩).1.tokenExpiry = some 120000
  ∧ cachedTokenValid (cwAuthenticate {} 0 ⟨"tok", 120⟩).1 60000 = true
  ∧ (cwAuthenticate (cwAuthenticate {} 0 ⟨"tok", 120⟩).1 60000 ⟨"tok2", 120⟩).2
      = false := by
  decide

/-- Claim C1 witness: the amended theorem applied to a NinjaOne token granted
at time 0 with `expires_in = 3600`: invalid exactly at 3540 s, still valid
one millisecond earlier. -/
theorem tokenExpiryBoundary_witness :
    cachedTokenValid (ninjaAuthenticate 0 ⟨"tok", 3600⟩)
      (0 + (((3600 : Nat) : Int) - 60) * 1000) = false
  ∧ cachedTokenValid (ninjaAuthenticate 0 ⟨"tok", 3600⟩) 3539999 = true :=
  ⟨tokenExpiryBoundary.2.2.1 0 ⟨"tok", 3600⟩,
   tokenExpiryBoundary.2.2.2.1 0 ⟨"tok", 3600⟩ 3539999 (by decide) (by decide)⟩

/-- Claim C6 (amended).  The clients implement no single-flight guard: the
bound that always holds is one exchange per caller (at most 2 for two
callers), and the interleaving in which both callers evaluate the
cached-token guard before either completes its fetch performs two exchanges.
A caller that checks only after another caller's exchange has completed (and
the granted token has `expires_in > 60` and a nonempty token string)
performs no exchange of its own. -/
theorem singleFlightAmended :
    (∀ now tr (sched : List Bool), (runSched now tr sched mpInit).exchanges ≤ 2)
  ∧ (∀ now tr, tr.access_token ≠ "" → 60 < tr.expires_in →
      (runSched now tr [false, false, true, true] mpInit).exchanges = 1) := by
  constructor
  · intro now tr sched
    have h := runSched_exchange_bound now tr sched mpInit (by simp [mpInit, pcDone])
    have h1 := pcDone_le_one (runSched now tr sched mpInit).pc1
    have h2 := pcDone_le_one (runSched now tr sched mpInit).pc2
    omega
  · intro now tr htok hexp
    have hvalid : cachedTokenValid (ninjaAuthenticate now tr) now = true := by
      simp [cachedTokenValid, ninjaAuthenticate, tokenTruthy, expiryAfterNow, htok]
      have : (1 : Int) ≤ (tr.expires_in : Int) - 60 := by omega
      nlinarith
    have hinvalid : cachedTokenValid ({} : TokenState) now = false := by
      simp [cachedTokenValid, tokenTruthy]
    simp [runSched, sysStep, callerStep, mpInit, hinvalid, hvalid]

/-- Claim C6 counterexample.  Under the schedule that interleaves the two
callers' guard checks before either fetch completes, the NinjaOne token
endpoint is contacted twice, refuting "at most one token exchange". -/
theorem singleFlight_cex :
    ¬ ((runSched 0 ⟨"tok", 3600⟩ [false, true, false, true] mpInit).exchanges ≤ 1) := by
  decide

/-- Claim C6 witness: the amended theorem at a concrete schedule and token
response. -/
theorem singleFlight_witness :
    (runSched 0 ⟨"tok", 3600⟩ [false, true, true, false] mpInit).exchanges ≤ 2
  ∧ (runSched 0 ⟨"tok", 3600⟩ [false, false, true, true] mpInit).exchanges = 1 :=
  ⟨singleFlightAmended.1 0 ⟨"tok", 3600⟩ [false, true, true, false],
   singleFlightAmended.2 0 ⟨"tok", 3600⟩ (by decide) (by decide)⟩

/-! ## Call-tool dispatch boundary (C2)

The NinjaOne server's `CallToolRequestSchema` handler first runs
`if (!ninjaClient) initializeClient(); if (!ninjaClient) throw ...` *outside*
its try/catch, then wraps the whole operation switch in
`try { ... } catch (error) { return { content: [error text] } }`.
The halopsa-reporting handler has no in-handler client initialization (its
client is constructed at startup, with `process.exit(1)` on missing config)
and wraps the whole switch in `try/catch` returning an
`{ content, isError: true }` envelope.  Exception propagation in JavaScript
is modelled by the outer `Except`; the operation switch and the vendor calls
inside the `try` are modelled by the `dispatch` argument, an arbitrary
outcome of evaluating the named operation on its argument bag. -/

/-- The MCP response envelope produced by a call-tool handler. -/
structure CallToolResult where
  content : List String
  isError : Bool

/-- True when the handler returned a response instead of throwing. -/
def exceptIsOk {ε α : Type} : Except ε α → Bool
  | .ok _ => true
  | .error _ => false

/-- The NinjaOne `CallToolRequestSchema` handler: client initialization
happens before the try/catch, so an initialization error propagates; any
error thrown by the operation switch is caught and rendered as a text
envelope (no `isError` flag is set in this server). -/
def ninjaCallToolHandler (clientInit : Except String Unit)
    (dispatch : Except String String) : Except String CallToolResult :=
  match clientInit with
  | .error e => .error e
  | .ok _ =>
    match dispatch with
    | .ok text => .ok { content := [text], isError := false }
    | .error msg => .ok { content := ["Error: " ++ msg], isError := false }

/-- The halopsa-reporting `CallToolRequestSchema` handler: the whole switch is
inside try/catch and every thrown error becomes an `isError` text envelope. -/
def haloReportingCallToolHandler (dispatch : Except String String) :
    Except String CallToolResult :=
  match dispatch with
  | .ok text => .ok { content := [text], isError := false }
  | .error msg => .ok { content := ["Error: " ++ msg], isError := true }

/-- Claim C2 (amended).  For every operation outcome — including a thrown
validation, authentication or API error, and the `unknown tool` error — the
halopsa-reporting handler always returns an envelope, and the NinjaOne
handler always returns an envelope once the vendor client initialized; but a
failure to initialize the vendor client is *not* caught (see the
counterexample), so the "never propagates" guarantee excludes
client-initialization/configuration errors. -/
theorem callToolNeverThrowsAmended :
    (∀ dispatch, exceptIsOk (haloReportingCallToolHandler dispatch) = true)
  ∧ (∀ dispatch, exceptIsOk (ninjaCallToolHandler (Except.ok ()) dispatch) = true) := by
  constructor <;> intro d <;> cases d <;> rfl

/-- Claim C2 counterexample.  When client initialization fails (missing
`NINJAONE_CLIENT_ID`/`NINJAONE_CLIENT_SECRET`), the NinjaOne handler throws
before entering its try/catch: the exception propagates to the caller
instead of being converted into an error envelope. -/
theorem callToolNeverThrows_cex :
    exceptIsOk
      (ninjaCallToolHandler
        (Except.error
          "NINJAONE_CLIENT_ID and NINJAONE_CLIENT_SECRET environment variables are required")
        (Except.ok "result")) = false := rfl

/-! ## Path categorization (C7)

`NinjaOneClient.categorizeApiPath` and the HaloPSA client's
`categorizeApiPath` are cascades of `if (path.includes(marker)) return cat;`
checks; the HaloPSA variant lower-cases the path first. -/

/-- `NinjaOneClient.categorizeApiPath`, translated check-for-check in source
order (case-sensitive `includes`). -/
def ninjaCategorizeApiPath (path : String) : String :=
  if strHasSub path "/device" then "Device Management"
  else if strHasSub path "/organization" then "Organization Management"
  else if strHasSub path "/alert" then "Alert Management"
  else if strHasSub path "/policy" || strHasSub path "/policies" then "Policy Management"
  else if strHasSub path "/software" then "Software Management"
  else if strHasSub path "/patch" then "Patch Management"
  else if strHasSub path "/script" then "Script Management"
  else if strHasSub path "/job" then "Job Management"
  else if strHasSub path "/maintenance" then "Maintenance Management"
  else if strHasSub path "/backup" then "Backup Management"
  else if strHasSub path "/antivirus" then "Antivirus Management"
  else if strHasSub path "/user" then "User Management"
  else if strHasSub path "/location" then "Location Management"
  else if strHasSub path "/activity" || strHasSub path "/activities" then "Activity Management"
  else if strHasSub path "/webhook" then "Webhook Management"
  else "Other"

/-- The NinjaOne rule cascade as an ordered data table (each rule is a list
of marker substrings and the category returned on first match). -/
def ninjaCategoryRules : List (List String × String) :=
  [(["/device"], "Device Management"),
   (["/organization"], "Organization Management"),
   (["/alert"], "Alert Management"),
   (["/policy", "/policies"], "Policy Management"),
   (["/software"], "Software Management"),
   (["/patch"], "Patch Management"),
   (["/script"], "Script Management"),
   (["/job"], "Job Management"),
   (["/maintenance"], "Maintenance Management"),
   (["/backup"], "Backup Management"),
   (["/antivirus"], "Antivirus Management"),
   (["/user"], "User Management"),
   (["/location"], "Location Management"),
   (["/activity", "/activities"], "Activity Management"),
   (["/webhook"], "Webhook Management")]

/-- The HaloPSA client's `categorizeApiPath`, translated in source order
(the path is lower-cased before the checks). -/
def haloCategorizeApiPath (path : String) : String :=
  let lowerPath := toLowerStr path
  if strHasSub lowerPath "/actions" then "Actions"
  else if strHasSub lowerPath "/ticket" then "Tickets"
  else if strHasSub lowerPath "/agent" then "Agents"
  else if strHasSub lowerPath "/client" then "Clients"
  else if strHasSub lowerPath "/site" then "Sites"
  else if strHasSub lowerPath "/user" then "Users"
  else if strHasSub lowerPath "/asset" then "Assets"
  else if strHasSub lowerPath "/invoice" then "Invoicing"
  else if strHasSub lowerPath "/report" then "Reports"
  else if strHasSub lowerPath "/address" then "Addresses"
  else if strHasSub lowerPath "/appointment" then "Appointments"
  else if strHasSub lowerPath "/project" then "Projects"
  else if strHasSub lowerPath "/contract" then "Contracts"
  else if strHasSub lowerPath "/supplier" then "Suppliers"
  else if strHasSub lowerPath "/product" then "Products"
  else if strHasSub lowerPath "/kb" || strHasSub lowerPath "/knowledge" then "Knowledge Base"
  else if strHasSub lowerPath "/integration" then "Integrations"
  else if strHasSub lowerPath "/webhook" then "Webhooks"
  else if strHasSub lowerPath "/api" then "API Management"
  else "Other"

/-- The HaloPSA rule cascade as an ordered data table. -/
def haloCategoryRules : List (List String × String) :=
  [(["/actions"], "Actions"),
   (["/ticket"], "Tickets"),
   (["/agent"], "Agents"),
   (["/client"], "Clients"),
   (["/site"], "Sites"),
   (["/user"], "Users"),
   (["/asset"], "Assets"),
   (["/invoice"], "Invoicing"),
   (["/report"], "Reports"),
   (["/address"], "Addresses"),
   (["/appointment"], "Appointments"),
   (["/project"], "Projects"),
   (["/contract"], "Contracts"),
   (["/supplier"], "Suppliers"),
   (["/product"], "Products"),
   (["/kb", "/knowledge"], "Knowledge Base"),
   (["/integration"], "Integrations"),
   (["/webhook"], "Webhooks"),
   (["/api"], "API Management")]

/-- A rule fires when any of its marker substrings occurs in the path. -/
def ruleMatches (p : String) (r : List String × String) : Bool :=
  r.1.any (fun m => strHasSub p m)

/-- First-match-wins evaluation of an ordered rule table, default `"Other"`. -/
def lookupCategory (p : String) : List (List String × String) → String
  | [] => "Other"
  | r :: rs => if ruleMatches p r then r.2 else lookupCategory p rs

lemma lookupCategory_first (p : String) :
    ∀ (pre : List (List String × String)) (r : List String × String) post,
      ruleMatches p r = true → (∀ r2 ∈ pre, ruleMatches p r2 = false) →
      lookupCategory p (pre ++ r :: post) = r.2
  | [], r, post, h, _ => by simp [lookupCategory, h]
  | r0 :: pre, r, post, h, hpre => by
      have h0 : ruleMatches p r0 = false := hpre r0 (by simp)
      simp only [List.cons_append, lookupCategory, h0, if_false,
        Bool.false_eq_true]
      exact lookupCategory_first p pre r post h (fun r2 hr2 => hpre r2 (by simp [hr2]))

lemma lookupCategory_none (p : String) :
    ∀ (rs : List (List String × String)),
      (∀ r ∈ rs, ruleMatches p r = false) → lookupCategory p rs = "Other"
  | [], _ => rfl
  | r0 :: rs, h => by
      have h0 : ruleMatches p r0 = false := h r0 (by simp)
      simp only [lookupCategory, h0, if_false, Bool.false_eq_true]
      exact lookupCategory_none p rs (fun r2 hr2 => h r2 (by simp [hr2]))

/-- Claim C7.  Both `categorizeApiPath` implementations are exactly
first-match-wins evaluation of their ordered rule tables (so the category is
a deterministic function of the path alone); when a rule matches and every
earlier rule fails, its category is returned; when no rule matches the
result is `"Other"`. -/
theorem categorizeFirstMatchWins :
    (∀ p, ninjaCategorizeApiPath p = lookupCategory p ninjaCategoryRules)
  ∧ (∀ p, haloCategorizeApiPath p = lookupCategory (toLowerStr p) haloCategoryRules)
  ∧ (∀ p pre r post, ninjaCategoryRules = pre ++ r :: post →
        ruleMatches p r = true → (∀ r2 ∈ pre, ruleMatches p r2 = false) →
        ninjaCategorizeApiPath p = r.2)
  ∧ (∀ p, (∀ r ∈ ninjaCategoryRules, ruleMatches p r = false) →
        ninjaCategorizeApiPath p = "Other") := by
  have hninja : ∀ p, ninjaCategorizeApiPath p = lookupCategory p ninjaCategoryRules := by
    intro p
    simp [ninjaCategorizeApiPath, lookupCategory, ninjaCategoryRules, ruleMatches]
  have hhalo : ∀ p, haloCategorizeApiPath p = lookupCategory (toLowerStr p) haloCategoryRules := by
    intro p
    simp [haloCategorizeApiPath, lookupCategory, haloCategoryRules, ruleMatches]
  refine ⟨hninja, hhalo, ?_, ?_⟩
  · intro p pre r post htable hr hpre
    rw [hninja p, htable]
    exact lookupCategory_first p pre r post hr hpre
  · intro p hall
    rw [hninja p]
    exact lookupCategory_none p ninjaCategoryRules hall

/-- Claim C7 witness: the synthetic path `/organization/device` matches both
the `/device` rule (first) and the `/organization` rule (second); the first
rule in table order wins. -/
theorem categorizeFirstMatchWins_witness :
    ninjaCategorizeApiPath "/organization/device" = "Device Management" :=
  categorizeFirstMatchWins.2.2.1 "/organization/device" []
    (["/device"], "Device Management") ninjaCategoryRules.tail rfl
    (by decide) (by intro r2 h; exact absurd h (List.not_mem_nil r2))

/-! ## Endpoint details with caps (C3)

`NinjaOneClient.getApiEndpointDetails` scans `Object.entries(schema.paths)`
in document order, breaking once `matchCount >= Math.min(maxEndpoints, 50)`;
it reports `matchCount`, `totalMatches` (a full filter count) and
`limited = matchCount >= Math.min(maxEndpoints, 50)`.  The per-entry payload
shaping (`summaryOnly` / `includeSchemas` / `includeExamples`) affects only
the contents attached to each returned path, not which or how many paths are
returned, and is not needed by any claim, so matched entries are represented
by their paths.

`ConnectWiseRMMClient.getEndpointDetails` iterates paths matching a
case-insensitive regex (modelled by the `test` predicate, the compiled
`new RegExp(pathPattern, 'i').test`), pushes one endpoint per (path, method)
pair, and breaks both loops once `matchingEndpoints.length >= maxEndpoints`;
it returns only `{ matchCount, endpoints }`.  The tool dispatch passes
`Math.min((args?.maxEndpoints as number) || 10, 50)` (so `0` falls back to
`10` by JavaScript truthiness). -/

/-- Result shape of `NinjaOneClient.getApiEndpointDetails` (matched entries
represented by their path keys, in insertion order). -/
structure NinjaDetailsResult where
  matchingPaths : List String
  matchCount : Nat
  totalMatches : Nat
  limited : Bool

/-- The scan loop of `getApiEndpointDetails`: stop at the cap, otherwise
accumulate paths containing the pattern (case-insensitive). -/
def ninjaDetailsLoop (pat : String) (cap : Nat) :
    List String → Nat → List String → Nat × List String
  | [], count, acc => (count, acc)
  | p :: rest, count, acc =>
    if cap ≤ count then (count, acc)
    else if strHasSubCI p pat then
      ninjaDetailsLoop pat cap rest (count + 1) (acc ++ [p])
    else ninjaDetailsLoop pat cap rest count acc

/-- `NinjaOneClient.getApiEndpointDetails` over the listed schema paths. -/
def ninjaGetApiEndpointDetails (pat : String) (maxEndpoints : Nat)
    (paths : List String) : NinjaDetailsResult :=
  let r := ninjaDetailsLoop pat (min maxEndpoints 50) paths 0 []
  { matchingPaths := r.2
    matchCount := r.1
    totalMatches := (paths.filter (fun p => strHasSubCI p pat)).length
    limited := decide (min maxEndpoints 50 ≤ r.1) }

lemma ninjaDetailsLoop_spec (pat : String) (cap : Nat) :
    ∀ (l : List String) (count : Nat) (acc : List String),
      count = acc.length → count ≤ cap →
      (ninjaDetailsLoop pat cap l count acc).2
          = acc ++ (l.filter (fun p => strHasSubCI p pat)).take (cap - count)
        ∧ (ninjaDetailsLoop pat cap l count acc).1
          = count + min (cap - count) (l.filter (fun p => strHasSubCI p pat)).length
  | [], count, acc, _, _ => by simp [ninjaDetailsLoop]
  | p :: rest, count, acc, hlen, hle => by
      by_cases hstop : cap ≤ count
      · have hcc : cap - count = 0 := by omega
        simp [ninjaDetailsLoop, hstop, hcc]
      · by_cases hm : strHasSubCI p pat
        · have hfc : List.filter (fun q => strHasSubCI q pat) (p :: rest)
              = p :: List.filter (fun q => strHasSubCI q pat) rest := by
            simp [hm]
          have ih := ninjaDetailsLoop_spec pat cap rest (count + 1) (acc ++ [p])
            (by simp [hlen]) (by omega)
          have hcc : cap - count = (cap - (count + 1)) + 1 := by omega
          simp only [ninjaDetailsLoop, if_neg hstop, if_pos hm]
          rw [hfc]
          constructor
          · rw [ih.1, hcc, List.take_succ_cons, List.append_assoc,
              List.singleton_append]
          · rw [ih.2, List.length_cons]
            omega
        · have hfc : List.filter (fun q => strHasSubCI q pat) (p :: rest)
              = List.filter (fun q => strHasSubCI q pat) rest := by
            simp [hm]
          have ih := ninjaDetailsLoop_spec pat cap rest count acc hlen hle
          simp only [ninjaDetailsLoop, if_neg hstop, if_neg hm]
          rw [hfc]
          exact ih

/-- One operation object in the ConnectWise OpenAPI schema
(`operationId? summary? description? tags?` as used by the client). -/
structure CwOp where
  operationId : Option String := none
  summary : Option String := none
  description : Option String := none
  tags : List String := []
deriving DecidableEq

/-- One endpoint record pushed by `getEndpointDetails` (payload-shaping
fields such as `parameters`/`responses` omitted; no claim depends on them). -/
structure CwEndpoint where
  path : String
  method : String
  operationId : Option String
  summary : Option String
  description : Option String
  tags : List String

/-- The endpoint record built for one (path, method, operation). -/
def cwMkEndpoint (p m : String) (op : CwOp) : CwEndpoint :=
  ⟨p, toUpperStr m, op.operationId, op.summary, op.description, op.tags⟩

/-- Inner loop of `getEndpointDetails`: push an endpoint per method, break
once `matchingEndpoints.length >= maxEndpoints` (checked after each push). -/
def cwDetailsInner (maxEndpoints : Nat) (p : String) :
    List (String × CwOp) → List CwEndpoint → List CwEndpoint
  | [], acc => acc
  | (m, op) :: rest, acc =>
    if maxEndpoints ≤ (acc ++ [cwMkEndpoint p m op]).length then
      acc ++ [cwMkEndpoint p m op]
    else cwDetailsInner maxEndpoints p rest (acc ++ [cwMkEndpoint p m op])

/-- Outer loop of `getEndpointDetails` over schema paths; `continue` on a
non-matching path, break once the cap is reached. -/
def cwDetailsOuter (test : String → Bool) (maxEndpoints : Nat) :
    List (String × List (String × CwOp)) → List CwEndpoint → List CwEndpoint
  | [], acc => acc
  | (p, ops) :: rest, acc =>
    if test p then
      if maxEndpoints ≤ (cwDetailsInner maxEndpoints p ops acc).length then
        cwDetailsInner maxEndpoints p ops acc
      else cwDetailsOuter test maxEndpoints rest (cwDetailsInner maxEndpoints p ops acc)
    else cwDetailsOuter test maxEndpoints rest acc

/-- Result shape of `ConnectWiseRMMClient.getEndpointDetails`: note there is
no `totalMatches` and no `limited` field — only the truncated count. -/
structure CwDetailsResult where
  matchCount : Nat
  endpoints : List CwEndpoint

/-- `ConnectWiseRMMClient.getEndpointDetails` (the `test` argument is the
compiled case-insensitive regex for the path pattern). -/
def cwGetEndpointDetails (test : String → Bool) (maxEndpoints : Nat)
    (paths : List (String × List (String × CwOp))) : CwDetailsResult :=
  let eps := cwDetailsOuter test maxEndpoints paths []
  { matchCount := eps.length, endpoints := eps }

/-- The `maxEndpoints` value the ConnectWise tool dispatch passes to the
client: `Math.min((args?.maxEndpoints as number) || 10, 50)`. -/
def cwConnectToolMax (k : Nat) : Nat := min (if k = 0 then 10 else k) 50

/-- The number of (path, method) entries on paths accepted by the pattern —
the true pre-truncation match count, which `getEndpointDetails` does not
report. -/
def cwMatchingEntryCount (test : String → Bool)
    (paths : List (String × List (String × CwOp))) : Nat :=
  ((paths.filter (fun e => test e.1)).map (fun e => e.2.length)).sum

lemma cwDetailsInner_le (maxEndpoints : Nat) (p : String) :
    ∀ (ops : List (String × CwOp)) (acc : List CwEndpoint),
      acc.length < maxEndpoints →
      (cwDetailsInner maxEndpoints p ops acc).length ≤ maxEndpoints
  | [], _, h => le_of_lt h
  | (m, op) :: rest, acc, h => by
      have hlen : (acc ++ [cwMkEndpoint p m op]).length = acc.length + 1 := by simp
      simp only [cwDetailsInner]
      split_ifs with hs
      · omega
      · exact cwDetailsInner_le maxEndpoints p rest (acc ++ [cwMkEndpoint p m op])
          (by omega)

lemma cwDetailsOuter_le (test : String → Bool) (maxEndpoints : Nat) :
    ∀ (paths : List (String × List (String × CwOp))) (acc : List CwEndpoint),
      acc.length < maxEndpoints →
      (cwDetailsOuter test maxEndpoints paths acc).length ≤ maxEndpoints
  | [], _, h => le_of_lt h
  | (p, ops) :: rest, acc, h => by
      simp only [cwDetailsOuter]
      split_ifs with hp hs
      · exact cwDetailsInner_le maxEndpoints p ops acc h
      · by_cases hin : (cwDetailsInner maxEndpoints p ops acc).length < maxEndpoints
        · exact cwDetailsOuter_le test maxEndpoints rest _ hin
        · omega
      · exact cwDetailsOuter_le test maxEndpoints rest acc h

/-- Claim C3 (amended).  The NinjaOne `getApiEndpointDetails` satisfies the
claim in full: at most `min(maxEndpoints, 50)` entries are returned,
`totalMatches` is the true pre-truncation filter count, and `limited` is set
whenever the true count exceeds the returned count.  The ConnectWise
`getEndpointDetails`, as invoked by the tool dispatch with any requested
`maxEndpoints ≥ 1`, also returns at most `min(maxEndpoints, 50)` entries,
but reports only the truncated `matchCount` (no `totalMatches`/`limited`
fields exist in its result — see the counterexample). -/
theorem endpointDetailsCap :
    (∀ pat K paths, (ninjaGetApiEndpointDetails pat K paths).matchCount ≤ min K 50)
  ∧ (∀ pat K paths, (ninjaGetApiEndpointDetails pat K paths).matchingPaths.length
        = (ninjaGetApiEndpointDetails pat K paths).matchCount)
  ∧ (∀ pat K paths, (ninjaGetApiEndpointDetails pat K paths).totalMatches
        = (paths.filter (fun p => strHasSubCI p pat)).length)
  ∧ (∀ pat K paths, (ninjaGetApiEndpointDetails pat K paths).matchCount
        < (ninjaGetApiEndpointDetails pat K paths).totalMatches →
        (ninjaGetApiEndpointDetails pat K paths).limited = true)
  ∧ (∀ test K paths, 1 ≤ K →
        (cwGetEndpointDetails test (cwConnectToolMax K) paths).endpoints.length
          ≤ min K 50) := by
  have hloop : ∀ pat K (paths : List String),
      (ninjaDetailsLoop pat (min K 50) paths 0 []).1
        = min (min K 50) (paths.filter (fun p => strHasSubCI p pat)).length ∧
      (ninjaDetailsLoop pat (min K 50) paths 0 []).2
        = (paths.filter (fun p => strHasSubCI p pat)).take (min K 50) := by
    intro pat K paths
    have h := ninjaDetailsLoop_spec pat (min K 50) paths 0 [] rfl (by omega)
    refine ⟨?_, ?_⟩
    · rw [h.2]
      omega
    · rw [h.1]
      simp
  refine ⟨?_, ?_, ?_, ?_, ?_⟩
  · intro pat K paths
    show (ninjaDetailsLoop pat (min K 50) paths 0 []).1 ≤ min K 50
    rw [(hloop pat K paths).1]
    omega
  · intro pat K paths
    show (ninjaDetailsLoop pat (min K 50) paths 0 []).2.length
        = (ninjaDetailsLoop pat (min K 50) paths 0 []).1
    rw [(hloop pat K paths).1, (hloop pat K paths).2, List.length_take]
  · intro pat K paths
    rfl
  · intro pat K paths h
    show decide (min K 50 ≤ (ninjaDetailsLoop pat (min K 50) paths 0 []).1) = true
    have h1 := (hloop pat K paths).1
    have h2 : (ninjaGetApiEndpointDetails pat K paths).matchCount
        = (ninjaDetailsLoop pat (min K 50) paths 0 []).1 := rfl
    have h3 : (ninjaGetApiEndpointDetails pat K paths).totalMatches
        = (paths.filter (fun p => strHasSubCI p pat)).length := rfl
    rw [h2, h3] at h
    simp only [decide_eq_true_eq]
    omega
  · intro test K paths hK
    have hmax : cwConnectToolMax K = min K 50 := by
      simp only [cwConnectToolMax]
      have : K ≠ 0 := by omega
      simp [this]
    have hpos : 0 < cwConnectToolMax K := by
      rw [hmax]
      omega
    show (cwDetailsOuter test (cwConnectToolMax K) paths []).length ≤ min K 50
    rw [← hmax]
    exact cwDetailsOuter_le test (cwConnectToolMax K) paths [] (by simpa using hpos)

/-- A concrete two-path ConnectWise schema in which both paths match the
pattern `ticket`, each contributing one (path, method) entry. -/
def cwCexSchema : List (String × List (String × CwOp)) :=
  [("/a/ticket", [("get", {})]), ("/b/ticket", [("get", {})])]

/-- Claim C3 counterexample.  With two matching entries and a requested
`maxEndpoints = 1`, the ConnectWise `getEndpointDetails` result carries
`matchCount = 1` — the truncated count — while the true pre-truncation match
count is 2; the result has no field reporting 2 and no `limited` flag, so the
claim's `totalMatches`/`limited` behaviour does not hold for this client. -/
theorem endpointDetailsCap_cex :
    (cwGetEndpointDetails (fun p => strHasSubCI p "ticket") (cwConnectToolMax 1)
        cwCexSchema).matchCount = 1
  ∧ cwMatchingEntryCount (fun p => strHasSubCI p "ticket") cwCexSchema = 2 := by
  constructor
  · decide
  · decide

/-- Claim C3 witness: the amended theorem at a concrete one-over-cap input
(three NinjaOne paths match `device`, `maxEndpoints = 2`; ConnectWise at
`maxEndpoints = 1`). -/
theorem endpointDetailsCap_witness :
    (ninjaGetApiEndpointDetails "device" 2
        ["/v2/devices", "/v2/device/1", "/v2/device/2", "/v2/users"]).matchCount ≤ min 2 50
  ∧ ((ninjaGetApiEndpointDetails "device" 2
        ["/v2/devices", "/v2/device/1", "/v2/device/2", "/v2/users"]).matchCount
      < (ninjaGetApiEndpointDetails "device" 2
        ["/v2/devices", "/v2/device/1", "/v2/device/2", "/v2/users"]).totalMatches →
      (ninjaGetApiEndpointDetails "device" 2
        ["/v2/devices", "/v2/device/1", "/v2/device/2", "/v2/users"]).limited = true)
  ∧ (cwGetEndpointDetails (fun p => strHasSubCI p "ticket") (cwConnectToolMax 1)
        cwCexSchema).endpoints.length ≤ min 1 50 :=
  ⟨endpointDetailsCap.1 "device" 2 ["/v2/devices", "/v2/device/1", "/v2/device/2", "/v2/users"],
   endpointDetailsCap.2.2.2.1 "device" 2
     ["/v2/devices", "/v2/device/1", "/v2/device/2", "/v2/users"],
   endpointDetailsCap.2.2.2.2 (fun p => strHasSubCI p "ticket") 1 cwCexSchema (by decide)⟩

/-! ## 2xx response handling (C8)

On a 2xx response the HaloPSA client's `makeApiCall` branches on the
`content-type` header (`contentType && contentType.includes('application/json')`
⇒ `response.json()`, else `response.text()`).  The ConnectWise
`makeRequest` reads the text and runs `JSON.parse` on any nonempty body
regardless of content type (empty body ⇒ `null`); the NinjaOne `request`
always calls `response.json()`.  `JSON.parse`/`response.json()` are modelled
by a parse oracle returning `none` on malformed JSON (in which case the
thrown `SyntaxError` is caught and rewrapped by the surrounding catch). -/

/-- An HTTP response as observed after `fetch`. -/
structure HttpResponse where
  ok : Bool
  contentType : Option String
  body : String

/-- What a 2xx call resolves to. -/
inductive ApiPayload (J : Type) where
  | json (j : J)
  | text (s : String)
  | nullVal
deriving DecidableEq

/-- `contentType && contentType.includes('application/json')`. -/
def contentTypeIsJson : Option String → Bool
  | some ct => strHasSub ct "application/json"
  | none => false

/-- Response handling of `HaloPSAClient.makeApiCall`. -/
def haloMakeApiCallRespond {J : Type} (parse : String → Option J)
    (r : HttpResponse) : Except String (ApiPayload J) :=
  if r.ok then
    if contentTypeIsJson r.contentType then
      match parse r.body with
      | some j => .ok (.json j)
      | none => .error "Failed to make API call: malformed JSON body"
    else .ok (.text r.body)
  else .error ("Failed to make API call: API call failed: " ++ r.body)

/-- Response handling of `ConnectWiseRMMClient.makeRequest`
(`responseText ? JSON.parse(responseText) : null`). -/
def cwMakeRequestRespond {J : Type} (parse : String → Option J)
    (r : HttpResponse) : Except String (ApiPayload J) :=
  if r.ok then
    if r.body == "" then .ok .nullVal
    else
      match parse r.body with
      | some j => .ok (.json j)
      | none => .error "API request failed: malformed JSON body"
  else .error ("API request failed: " ++ r.body)

/-- Response handling of `NinjaOneClient.request` (`return response.json()`). -/
def ninjaRequestRespond {J : Type} (parse : String → Option J)
    (r : HttpResponse) : Except String (ApiPayload J) :=
  if r.ok then
    match parse r.body with
    | some j => .ok (.json j)
    | none => .error "malformed JSON body"
  else .error "API request failed"

/-- Claim C8 (amended).  Only the HaloPSA `makeApiCall` implements the
claimed behaviour: on 2xx it returns parsed JSON when the content type
indicates JSON and the raw text otherwise.  The ConnectWise `makeRequest`
and the NinjaOne `request` never return raw text on 2xx: they JSON-parse the
body regardless of content type (ConnectWise resolves an empty body to
`null`), failing on non-JSON bodies. -/
theorem twoxxContentTypeAmended :
    (∀ (J : Type) (parse : String → Option J) r, r.ok = true →
        contentTypeIsJson r.contentType = false →
        haloMakeApiCallRespond parse r = .ok (.text r.body))
  ∧ (∀ (J : Type) (parse : String → Option J) r j, r.ok = true →
        contentTypeIsJson r.contentType = true → parse r.body = some j →
        haloMakeApiCallRespond parse r = .ok (.json j))
  ∧ (∀ (J : Type) (parse : String → Option J) r s, r.ok = true →
        ¬ cwMakeRequestRespond parse r = .ok (.text s))
  ∧ (∀ (J : Type) (parse : String → Option J) r s,
        ¬ ninjaRequestRespond parse r = .ok (.text s)) := by
  refine ⟨?_, ?_, ?_, ?_⟩
  · intro J parse r hok hct
    simp [haloMakeApiCallRespond, hok, hct]
  · intro J parse r j hok hct hp
    simp [haloMakeApiCallRespond, hok, hct, hp]
  · intro J parse r s hok
    simp only [cwMakeRequestRespond, hok, if_true]
    split_ifs
    · simp
    · rcases hp : parse r.body with _ | j <;> simp [hp]
  · intro J parse r s
    simp only [ninjaRequestRespond]
    split_ifs
    · rcases hp : parse r.body with _ | j <;> simp [hp]
    · simp

/-- Claim C8 counterexample.  A 2xx response with content type `text/plain`
and non-JSON body `hello`: the claim says the client returns the raw text,
but the ConnectWise and NinjaOne clients attempt `JSON.parse` and throw. -/
theorem twoxxContentType_cex :
    cwMakeRequestRespond (fun _ => (none : Option Nat))
        ⟨true, some "text/plain", "hello"⟩
      = .error "API request failed: malformed JSON body"
  ∧ ninjaRequestRespond (fun _ => (none : Option Nat))
        ⟨true, some "text/plain", "hello"⟩
      = .error "malformed JSON body" := by
  constructor
  · rfl
  · rfl

/-- Claim C8 witness: the amended theorem at concrete responses — HaloPSA
returns the raw text of a `text/plain` 2xx body and the parsed value of an
`application/json` one; ConnectWise never yields raw text for the former. -/
theorem twoxxContentType_witness :
    haloMakeApiCallRespond (fun _ => (none : Option Nat))
        ⟨true, some "text/plain", "hello"⟩ = .ok (.text "hello")
  ∧ haloMakeApiCallRespond (fun _ => (some 7 : Option Nat))
        ⟨true, some "application/json; charset=utf-8", "7"⟩ = .ok (.json 7)
  ∧ ¬ cwMakeRequestRespond (fun _ => (none : Option Nat))
        ⟨true, some "text/plain", "hello"⟩ = .ok (.text "hello") :=
  ⟨twoxxContentTypeAmended.1 Nat (fun _ => none) ⟨true, some "text/plain", "hello"⟩
      rfl (by decide),
   twoxxContentTypeAmended.2.1 Nat (fun _ => some 7)
      ⟨true, some "application/json; charset=utf-8", "7"⟩ 7 rfl (by decide) rfl,
   twoxxContentTypeAmended.2.2.1 Nat (fun _ => none)
      ⟨true, some "text/plain", "hello"⟩ "hello" rfl⟩

/-! ## Endpoint search (C4)

`ConnectWiseRMMClient.searchEndpoints` splits the query on whitespace into
lowercase tokens and keeps a (path, method, operation) entry when *every*
token occurs in
`[path, method, operationId||'', summary||'', description||'', ...tags].join(' ').toLowerCase()`
— logical AND.  The HaloPSA client's `searchApiEndpoints` instead tests
whether the *whole* lower-cased query string occurs contiguously in
`[path, summary||'', description||'', ...tags].join(' ').toLowerCase()`
(no method/operationId, no tokenization), then paginates with
`slice(skip, skip + limit)`. -/

mutual

/-- JavaScript `split(/\s+/)`: main scanning state (building a piece). -/
def splitWsGo : List Char → List Char → List String
  | [], cur => [String.mk cur.reverse]
  | c :: rest, cur =>
    if c.isWhitespace then String.mk cur.reverse :: splitWsSkip rest
    else splitWsGo rest (c :: cur)

/-- JavaScript `split(/\s+/)`: state just after a separator run began. -/
def splitWsSkip : List Char → List String
  | [] => [""]
  | c :: rest => if c.isWhitespace then splitWsSkip rest else splitWsGo rest [c]

end

/-- JavaScript `s.split(/\s+/)` (a leading/trailing separator contributes an
empty piece, exactly as in JavaScript). -/
def splitWs (s : String) : List String := splitWsGo s.toList []

/-- `query.toLowerCase().split(/\s+/)` — the search tokens. -/
def tokensOf (q : String) : List String := splitWs (toLowerStr q)

/-- JavaScript `x || ''` on an optional string. -/
def orEmpty : Option String → String
  | some s => s
  | none => ""

/-- The combined searchable text of one ConnectWise entry. -/
def cwSearchableText (p m : String) (op : CwOp) : String :=
  toLowerStr (String.intercalate " "
    ([p, m, orEmpty op.operationId, orEmpty op.summary, orEmpty op.description]
      ++ op.tags))

/-- `searchTerms.every(term => searchableText.includes(term))`. -/
def cwTermsMatch (terms : List String) (txt : String) : Bool :=
  terms.all (fun t => strHasSub txt t)

/-- The result line pushed for a matching entry:
`` `${method.toUpperCase()} ${path} - ${op.summary || 'No summary'}` ``. -/
def cwFormatResult (p m : String) (op : CwOp) : String :=
  toUpperStr m ++ " " ++ p ++ " - " ++
    (match op.summary with
     | some s => if s == "" then "No summary" else s
     | none => "No summary")

/-- Inner loop of `searchEndpoints` over the methods of one path. -/
def cwSearchInner (terms : List String) (p : String) :
    List (String × CwOp) → List String
  | [] => []
  | (m, op) :: rest =>
    if cwTermsMatch terms (cwSearchableText p m op) then
      cwFormatResult p m op :: cwSearchInner terms p rest
    else cwSearchInner terms p rest

/-- `ConnectWiseRMMClient.searchEndpoints`. -/
def cwSearchEndpoints (q : String) :
    List (String × List (String × CwOp)) → List String
  | [] => []
  | (p, ops) :: rest => cwSearchInner (tokensOf q) p ops ++ cwSearchEndpoints q rest

/-- The flattened (path, method, operation) entries of a schema, in
document order. -/
def pathOpPairs : List (String × List (String × CwOp)) →
    List (String × String × CwOp)
  | [] => []
  | (p, ops) :: rest => (ops.map (fun mo => (p, mo.1, mo.2))) ++ pathOpPairs rest

/-- One result object pushed by the HaloPSA `searchApiEndpoints`. -/
structure HaloSearchEntry where
  path : String
  method : String
  summary : Option String
  description : Option String
  tags : List String
deriving DecidableEq

/-- The searchable text of the HaloPSA `searchApiEndpoints`
(`[path, summary||'', description||'', ...tags].join(' ').toLowerCase()` —
note: no method, no operationId). -/
def haloSearchText (p : String) (op : CwOp) : String :=
  toLowerStr (String.intercalate " "
    ([p, orEmpty op.summary, orEmpty op.description] ++ op.tags))

/-- The result object built for a matching HaloPSA entry. -/
def haloEntryOf (p m : String) (op : CwOp) : HaloSearchEntry :=
  ⟨p, toUpperStr m, op.summary, op.description, op.tags⟩

/-- Inner collection loop of `searchApiEndpoints`: keep an entry when the
whole lower-cased query occurs in its searchable text. -/
def haloSearchOps (ql p : String) : List (String × CwOp) → List HaloSearchEntry
  | [] => []
  | (m, op) :: rest =>
    if strHasSub (haloSearchText p op) ql then
      haloEntryOf p m op :: haloSearchOps ql p rest
    else haloSearchOps ql p rest

/-- Outer collection loop of `searchApiEndpoints` over all schema paths. -/
def haloSearchCollect (ql : String) :
    List (String × List (String × CwOp)) → List HaloSearchEntry
  | [] => []
  | (p, ops) :: rest => haloSearchOps ql p ops ++ haloSearchCollect ql rest

/-- Result shape of `searchApiEndpoints`. -/
structure HaloSearchResult where
  results : List HaloSearchEntry
  returnedCount : Nat
  totalResults : Nat
  skipped : Nat
  hasMore : Bool
deriving DecidableEq

/-- `HaloPSAClient.searchApiEndpoints` with its `slice(skip, skip + limit)`
pagination. -/
def haloSearchApiEndpoints (q : String) (limit skip : Nat)
    (paths : List (String × List (String × CwOp))) : HaloSearchResult :=
  let all := haloSearchCollect (toLowerStr q) paths
  let page := (all.drop skip).take limit
  { results := page
    returnedCount := page.length
    totalResults := all.length
    skipped := skip
    hasMore := decide (skip + page.length < all.length) }

lemma cwSearchInner_sound (terms : List String) (p : String) :
    ∀ (ops : List (String × CwOp)) s, s ∈ cwSearchInner terms p ops →
      ∃ m op, (m, op) ∈ ops ∧
        cwTermsMatch terms (cwSearchableText p m op) = true ∧
        s = cwFormatResult p m op
  | [], s, h => absurd h (List.not_mem_nil s)
  | (m, op) :: rest, s, h => by
      by_cases hm : cwTermsMatch terms (cwSearchableText p m op)
      · rw [cwSearchInner, if_pos hm] at h
        rcases List.mem_cons.mp h with h1 | h1
        · exact ⟨m, op, by simp, hm, h1⟩
        · obtain ⟨m2, op2, hmem, hmt, hs⟩ := cwSearchInner_sound terms p rest s h1
          exact ⟨m2, op2, by simp [hmem], hmt, hs⟩
      · rw [cwSearchInner, if_neg hm] at h
        obtain ⟨m2, op2, hmem, hmt, hs⟩ := cwSearchInner_sound terms p rest s h
        exact ⟨m2, op2, by simp [hmem], hmt, hs⟩

lemma cwSearchInner_complete (terms : List String) (p : String) :
    ∀ (ops : List (String × CwOp)) m op, (m, op) ∈ ops →
      cwTermsMatch terms (cwSearchableText p m op) = true →
      cwFormatResult p m op ∈ cwSearchInner terms p ops
  | [], m, op, h, _ => absurd h (List.not_mem_nil (m, op))
  | (m0, op0) :: rest, m, op, h, hmt => by
      rcases List.mem_cons.mp h with h1 | h1
      · simp only [Prod.mk.injEq] at h1
        obtain ⟨hm, hop⟩ := h1
        subst hm
        subst hop
        rw [cwSearchInner, if_pos hmt]
        exact List.mem_cons_self _ _
      · by_cases hm0 : cwTermsMatch terms (cwSearchableText p m0 op0)
        · rw [cwSearchInner, if_pos hm0]
          exact List.mem_cons_of_mem _ (cwSearchInner_complete terms p rest m op h1 hmt)
        · rw [cwSearchInner, if_neg hm0]
          exact cwSearchInner_complete terms p rest m op h1 hmt

lemma pathOpPairs_mem_of :
    ∀ (paths : List (String × List (String × CwOp))) p m op,
      (p, m, op) ∈ pathOpPairs paths →
      ∃ ops, (p, ops) ∈ paths ∧ (m, op) ∈ ops
  | [], _, _, _, h => absurd h (List.not_mem_nil _)
  | (p0, ops0) :: rest, p, m, op, h => by
      rw [pathOpPairs] at h
      rcases List.mem_append.mp h with h1 | h1
      · obtain ⟨mo, hmo, heq⟩ := List.mem_map.mp h1
        simp only [Prod.mk.injEq] at heq
        obtain ⟨hp, hm, hop⟩ := heq
        subst hp
        refine ⟨ops0, by simp, ?_⟩
        have hmoe : mo = (m, op) := by
          rcases mo with ⟨a, b⟩
          simp only at hm hop
          simp [hm, hop]
        rw [← hmoe]
        exact hmo
      · obtain ⟨ops, hops, hmem⟩ := pathOpPairs_mem_of rest p m op h1
        exact ⟨ops, by simp [hops], hmem⟩

lemma cwSearchEndpoints_sound (q : String) :
    ∀ (paths : List (String × List (String × CwOp))) s,
      s ∈ cwSearchEndpoints q paths →
      ∃ p m op, (p, m, op) ∈ pathOpPairs paths ∧
        cwTermsMatch (tokensOf q) (cwSearchableText p m op) = true ∧
        s = cwFormatResult p m op
  | [], s, h => absurd h (List.not_mem_nil s)
  | (p0, ops0) :: rest, s, h => by
      rw [cwSearchEndpoints] at h
      rcases List.mem_append.mp h with h1 | h1
      · obtain ⟨m, op, hmem, hmt, hs⟩ := cwSearchInner_sound (tokensOf q) p0 ops0 s h1
        refine ⟨p0, m, op, ?_, hmt, hs⟩
        rw [pathOpPairs]
        exact List.mem_append.mpr (Or.inl (List.mem_map.mpr ⟨(m, op), hmem, rfl⟩))
      · obtain ⟨p, m, op, hmem, hmt, hs⟩ := cwSearchEndpoints_sound q rest s h1
        refine ⟨p, m, op, ?_, hmt, hs⟩
        rw [pathOpPairs]
        exact List.mem_append.mpr (Or.inr hmem)

lemma cwSearchEndpoints_complete (q : String) :
    ∀ (paths : List (String × List (String × CwOp))) p m op,
      (p, m, op) ∈ pathOpPairs paths →
      cwTermsMatch (tokensOf q) (cwSearchableText p m op) = true →
      cwFormatResult p m op ∈ cwSearchEndpoints q paths
  | [], _, _, _, h, _ => absurd h (List.not_mem_nil _)
  | (p0, ops0) :: rest, p, m, op, h, hmt => by
      rw [pathOpPairs] at h
      rw [cwSearchEndpoints]
      rcases List.mem_append.mp h with h1 | h1
      · obtain ⟨mo, hmo, heq⟩ := List.mem_map.mp h1
        simp only [Prod.mk.injEq] at heq
        obtain ⟨hp, hm, hop⟩ := heq
        subst hp
        have hmo2 : (m, op) ∈ ops0 := by
          rcases mo with ⟨a, b⟩
          simp only at hm hop
          rw [← hm, ← hop]
          exact hmo
        exact List.mem_append.mpr
          (Or.inl (cwSearchInner_complete (tokensOf q) p0 ops0 m op hmo2 hmt))
      · exact List.mem_append.mpr
          (Or.inr (cwSearchEndpoints_complete q rest p m op h1 hmt))

lemma haloSearchOps_eq (ql p : String) :
    ∀ (ops : List (String × CwOp)),
      haloSearchOps ql p ops
        = (((ops.map (fun mo => (p, mo.1, mo.2))).filter
              (fun e => strHasSub (haloSearchText e.1 e.2.2) ql)).map
            (fun e => haloEntryOf e.1 e.2.1 e.2.2))
  | [] => rfl
  | (m, op) :: rest => by
      by_cases hm : strHasSub (haloSearchText p op) ql
      · rw [haloSearchOps, if_pos hm]
        simp only [List.map_cons, List.filter_cons]
        simp only [hm, if_pos]
        rw [List.map_cons]
        rw [haloSearchOps_eq ql p rest]
      · rw [haloSearchOps, if_neg hm]
        simp only [List.map_cons, List.filter_cons]
        simp only [hm]
        simp only [Bool.false_eq_true, if_false]
        rw [haloSearchOps_eq ql p rest]

lemma haloSearchCollect_eq (ql : String) :
    ∀ (paths : List (String × List (String × CwOp))),
      haloSearchCollect ql paths
        = (((pathOpPairs paths).filter
              (fun e => strHasSub (haloSearchText e.1 e.2.2) ql)).map
            (fun e => haloEntryOf e.1 e.2.1 e.2.2))
  | [] => rfl
  | (p, ops) :: rest => by
      rw [haloSearchCollect, pathOpPairs, List.filter_append, List.map_append,
        haloSearchOps_eq ql p ops, haloSearchCollect_eq ql rest]

/-- Claim C4 (amended).  The ConnectWise `searchEndpoints` has exactly the
claimed AND-semantics: a formatted result is emitted for an entry iff every
lower-cased whitespace token of the query occurs in the entry's combined
path+method+operationId+summary+description+tags text (so an entry with only
a proper subset of tokens is never emitted).  The HaloPSA
`searchApiEndpoints` does not tokenize: it keeps exactly the entries whose
path+summary+description+tags text contains the whole query as one
contiguous substring, paginated by `slice(skip, skip+limit)` (see the
counterexample for the divergence from the claim). -/
theorem searchAndSemantics :
    (∀ q paths s, s ∈ cwSearchEndpoints q paths →
        ∃ p m op, (p, m, op) ∈ pathOpPairs paths ∧
          cwTermsMatch (tokensOf q) (cwSearchableText p m op) = true ∧
          s = cwFormatResult p m op)
  ∧ (∀ q paths p m op, (p, m, op) ∈ pathOpPairs paths →
        cwTermsMatch (tokensOf q) (cwSearchableText p m op) = true →
        cwFormatResult p m op ∈ cwSearchEndpoints q paths)
  ∧ (∀ q limit skip paths,
        (haloSearchApiEndpoints q limit skip paths).results
          = (((((pathOpPairs paths).filter
                  (fun e => strHasSub (haloSearchText e.1 e.2.2) (toLowerStr q))).map
                (fun e => haloEntryOf e.1 e.2.1 e.2.2)).drop skip).take limit)) := by
  refine ⟨cwSearchEndpoints_sound, cwSearchEndpoints_complete, ?_⟩
  intro q limit skip paths
  show ((haloSearchCollect (toLowerStr q) paths).drop skip).take limit = _
  rw [haloSearchCollect_eq]

/-- The operation of the C4 counterexample schema. -/
def c4Op : CwOp := { summary := some "Create" }

/-- A one-entry schema: path `/api/ticket/x`, method `post`, summary
`Create`. -/
def c4Schema : List (String × List (String × CwOp)) :=
  [("/api/ticket/x", [("post", c4Op)])]

/-- Claim C4 counterexample.  For the query `ticket create`, both tokens
occur in the entry's combined searchable text (the claim therefore requires
the entry to be returned by every endpoint search), yet the HaloPSA
`searchApiEndpoints` returns nothing: its single-substring test fails
because `ticket create` does not occur contiguously. -/
theorem searchAndSemantics_cex :
    cwTermsMatch (tokensOf "ticket create")
        (cwSearchableText "/api/ticket/x" "post" c4Op) = true
  ∧ (haloSearchApiEndpoints "ticket create" 50 0 c4Schema).results = [] := by
  constructor
  · decide
  · decide

/-- Claim C4 witness: the theorem's completeness part at the concrete
schema — the ConnectWise search does return the entry for `ticket create` —
and its pagination part at the same input. -/
theorem searchAndSemantics_witness :
    cwFormatResult "/api/ticket/x" "post" c4Op
        ∈ cwSearchEndpoints "ticket create" c4Schema
  ∧ (haloSearchApiEndpoints "ticket create" 50 0 c4Schema).results
      = (((((pathOpPairs c4Schema).filter
              (fun e => strHasSub (haloSearchText e.1 e.2.2)
                (toLowerStr "ticket create"))).map
            (fun e => haloEntryOf e.1 e.2.1 e.2.2)).drop 0).take 50) :=
  ⟨searchAndSemantics.2.1 "ticket create" c4Schema "/api/ticket/x" "post" c4Op
      (by decide) (by decide),
   searchAndSemantics.2.2 "ticket create" 50 0 c4Schema⟩

/-! ## Schema listing (C5)

`HaloPSAClient.getApiSchemas(schemaPattern?, limit = 50, skip = 0,
listNames = false)` walks `Object.entries(components.schemas)` once:
a name failing the case-insensitive pattern filter is skipped entirely;
a matching name is pushed onto `matchingSchemaNames`; the first `skip`
matching names are then passed over, at most `limit` of the remaining ones
are copied into the result; `hasMore = skip + schemaCount <
matchingSchemaNames.length`; the (JS-default-sorted) name list is attached
only when `listNames` or at most 20 names match, otherwise a hint string. -/

/-- JS code-unit comparison of strings (`Array.prototype.sort` default
order; the schema names are ASCII, where code units equal code points). -/
def charsLt : List Char → List Char → Bool
  | [], [] => false
  | [], _ :: _ => true
  | _ :: _, [] => false
  | a :: as, b :: bs =>
    decide (a.toNat < b.toNat) || (a == b && charsLt as bs)

/-- `a < b` in JavaScript default sort order. -/
def strLtJs (a b : String) : Bool := charsLt a.toList b.toList

/-- Insertion into a sorted list (for `matchingSchemaNames.sort()`). -/
def insertSorted (x : String) : List String → List String
  | [] => [x]
  | y :: ys => if strLtJs y x then y :: insertSorted x ys else x :: y :: ys

/-- `matchingSchemaNames.sort()` — insertion sort in JS default order. -/
def sortNames : List String → List String
  | [] => []
  | x :: xs => insertSorted x (sortNames xs)

/-- `!(schemaPattern && !name.toLowerCase().includes(pattern.toLowerCase()))`:
a name matches when no pattern is given, the pattern is the (falsy) empty
string, or the pattern occurs case-insensitively in the name. -/
def schemaNameMatches (pat : Option String) (name : String) : Bool :=
  match pat with
  | none => true
  | some p => if p == "" then true else strHasSubCI name p

/-- Loop state of `getApiSchemas`: collected `schemas`, all matching names,
`schemaCount`, `skippedCount`. -/
structure SchemasAcc (J : Type) where
  schemas : List (String × J)
  matching : List String
  schemaCount : Nat
  skippedCount : Nat

/-- One iteration of the `Object.entries(allSchemas).forEach` body. -/
def getApiSchemasStep {J : Type} (limit skip : Nat) (pat : Option String)
    (acc : SchemasAcc J) (e : String × J) : SchemasAcc J :=
  if schemaNameMatches pat e.1 then
    if acc.skippedCount < skip then
      { acc with matching := acc.matching ++ [e.1],
                 skippedCount := acc.skippedCount + 1 }
    else if limit ≤ acc.schemaCount then
      { acc with matching := acc.matching ++ [e.1] }
    else
      { acc with matching := acc.matching ++ [e.1],
                 schemas := acc.schemas ++ [e],
                 schemaCount := acc.schemaCount + 1 }
  else acc

/-- The`forEach` loop of `getApiSchemas`. -/
def getApiSchemasLoop {J : Type} (limit skip : Nat) (pat : Option String) :
    List (String × J) → SchemasAcc J → SchemasAcc J
  | [], acc => acc
  | e :: rest, acc =>
      getApiSchemasLoop limit skip pat rest (getApiSchemasStep limit skip pat acc e)

/-- Result shape of `getApiSchemas`.  `schemaNames`/`hint` are `Option`s:
exactly one of them is attached, depending on `listNames` and the match
count. -/
structure GetApiSchemasResult (J : Type) where
  schemas : List (String × J)
  returnedCount : Nat
  matchingCount : Nat
  totalSchemasInAPI : Nat
  skipped : Nat
  limited : Bool
  hasMore : Bool
  schemaNames : Option (List String)
  hint : Option String

/-- `HaloPSAClient.getApiSchemas` over the ordered component-schema entries. -/
def getApiSchemas {J : Type} (pat : Option String) (limit skip : Nat)
    (listNames : Bool) (allSchemas : List (String × J)) : GetApiSchemasResult J :=
  let acc := getApiSchemasLoop limit skip pat allSchemas ⟨[], [], 0, 0⟩
  { schemas := acc.schemas
    returnedCount := acc.schemaCount
    matchingCount := acc.matching.length
    totalSchemasInAPI := allSchemas.length
    skipped := skip
    limited := decide (limit ≤ acc.schemaCount)
    hasMore := decide (skip + acc.schemaCount < acc.matching.length)
    schemaNames :=
      if listNames || acc.matching.length ≤ 20 then some (sortNames acc.matching)
      else none
    hint :=
      if listNames || acc.matching.length ≤ 20 then none
      else some (toString acc.matching.length
        ++ " schemas match. Set listNames=true to see all names.") }

/-- The loop state after processing a prefix `pre` of the entries:
matching names are the filtered names, the collected schemas are
filter-then-drop-then-take, the counts are derived. -/
def schemasAccOf {J : Type} (limit skip : Nat) (pat : Option String)
    (pre : List (String × J)) : SchemasAcc J :=
  let F := pre.filter (fun e => schemaNameMatches pat e.1)
  { schemas := (F.drop skip).take limit
    matching := F.map Prod.fst
    schemaCount := ((F.drop skip).take limit).length
    skippedCount := min skip F.length }

lemma getApiSchemasStep_spec {J : Type} (limit skip : Nat) (pat : Option String)
    (pre : List (String × J)) (e : String × J) :
    getApiSchemasStep limit skip pat (schemasAccOf limit skip pat pre) e
      = schemasAccOf limit skip pat (pre ++ [e]) := by
  by_cases hm : schemaNameMatches pat e.1
  · have hfe : [e].filter (fun x => schemaNameMatches pat x.1) = [e] := by
      simp [List.filter, hm]
    simp only [getApiSchemasStep, schemasAccOf, if_pos hm, List.filter_append, hfe]
    generalize pre.filter (fun x => schemaNameMatches pat x.1) = F
    by_cases hskip : min skip F.length < skip
    · have hlen : F.length < skip := by omega
      have hdrop : F.drop skip = [] := List.drop_eq_nil_of_le (by omega)
      have hdrop2 : (F ++ [e]).drop skip = [] :=
        List.drop_eq_nil_of_le
          (by simp only [List.length_append, List.length_cons, List.length_nil]; omega)
      rw [if_pos hskip]
      simp only [hdrop, hdrop2, List.take_nil, SchemasAcc.mk.injEq]
      refine ⟨?_, ?_, ?_, ?_⟩ <;> first | trivial | (simp; done) | omega |
        (simp only [List.length_append, List.length_cons, List.length_nil]; omega)
    · have hle : skip ≤ F.length := by omega
      have hdropapp : (F ++ [e]).drop skip = F.drop skip ++ [e] :=
        List.drop_append_of_le_length hle
      rw [if_neg hskip]
      by_cases hlim : limit ≤ ((F.drop skip).take limit).length
      · have hlim2 : limit ≤ (F.drop skip).length := by
          simp only [List.length_take] at hlim
          omega
        have htake : ((F.drop skip) ++ [e]).take limit = (F.drop skip).take limit :=
          List.take_append_of_le_length hlim2
        rw [if_pos hlim]
        simp only [hdropapp, htake, SchemasAcc.mk.injEq]
        refine ⟨?_, ?_, ?_, ?_⟩ <;> first | trivial | (simp; done) | omega |
          (simp only [List.length_append, List.length_cons, List.length_nil]; omega)
      · have hlim2 : (F.drop skip).length < limit := by
          simp only [List.length_take] at hlim
          omega
        have htakeall : (F.drop skip).take limit = F.drop skip :=
          List.take_of_length_le (by omega)
        have htake2 : ((F.drop skip) ++ [e]).take limit = F.drop skip ++ [e] :=
          List.take_of_length_le
            (by simp only [List.length_append, List.length_cons, List.length_nil]; omega)
        rw [if_neg hlim]
        simp only [hdropapp, htake2, htakeall, SchemasAcc.mk.injEq]
        refine ⟨?_, ?_, ?_, ?_⟩ <;> first | trivial | (simp; done) | omega |
          (simp only [List.length_append, List.length_cons, List.length_nil]; omega)
  · have hf : (pre ++ [e]).filter (fun x => schemaNameMatches pat x.1)
        = pre.filter (fun x => schemaNameMatches pat x.1) := by
      rw [List.filter_append]
      simp [List.filter, hm]
    simp only [getApiSchemasStep, hm, Bool.false_eq_true, if_false, schemasAccOf, hf]

lemma getApiSchemasLoop_spec {J : Type} (limit skip : Nat) (pat : Option String) :
    ∀ (l pre : List (String × J)),
      getApiSchemasLoop limit skip pat l (schemasAccOf limit skip pat pre)
        = schemasAccOf limit skip pat (pre ++ l)
  | [], pre => by simp [getApiSchemasLoop]
  | e :: rest, pre => by
      rw [getApiSchemasLoop, getApiSchemasStep_spec limit skip pat pre e,
        getApiSchemasLoop_spec limit skip pat rest (pre ++ [e])]
      simp

lemma getApiSchemas_acc {J : Type} (pat : Option String) (limit skip : Nat)
    (allSchemas : List (String × J)) :
    getApiSchemasLoop limit skip pat allSchemas ⟨[], [], 0, 0⟩
      = schemasAccOf limit skip pat allSchemas := by
  have h0 : (⟨[], [], 0, 0⟩ : SchemasAcc J) = schemasAccOf limit skip pat [] := by
    simp [schemasAccOf]
  rw [h0, getApiSchemasLoop_spec limit skip pat allSchemas []]
  rfl

/-- Claim C5.  `getApiSchemas` filters the component-schema entries by the
case-insensitive pattern, then skips the first `skip` matching entries and
returns at most `limit` of the remaining ones in discovery order
(filter-then-paginate); `hasMore` is true exactly when `skip` plus the
number of returned schemas is below the number of matching names; the sorted
full name list is attached exactly when `listNames` is set or at most 20
names match, and otherwise only a count and a hint string are attached. -/
theorem listSchemasFilterPaginate :
    ∀ (J : Type) (pat : Option String) (limit skip : Nat) (listNames : Bool)
      (allSchemas : List (String × J)),
      ((getApiSchemas pat limit skip listNames allSchemas).schemas
          = (((allSchemas.filter (fun e => schemaNameMatches pat e.1)).drop skip).take limit))
      ∧ ((getApiSchemas pat limit skip listNames allSchemas).returnedCount
          = (getApiSchemas pat limit skip listNames allSchemas).schemas.length)
      ∧ ((getApiSchemas pat limit skip listNames allSchemas).matchingCount
          = (allSchemas.filter (fun e => schemaNameMatches pat e.1)).length)
      ∧ ((getApiSchemas pat limit skip listNames allSchemas).hasMore
          = decide (skip + (getApiSchemas pat limit skip listNames allSchemas).returnedCount
              < (getApiSchemas pat limit skip listNames allSchemas).matchingCount))
      ∧ ((getApiSchemas pat limit skip listNames allSchemas).schemaNames
          = if listNames
              || (allSchemas.filter (fun e => schemaNameMatches pat e.1)).length ≤ 20
            then some (sortNames
              ((allSchemas.filter (fun e => schemaNameMatches pat e.1)).map Prod.fst))
            else none)
      ∧ ((getApiSchemas pat limit skip listNames allSchemas).hint = none
          ↔ (getApiSchemas pat limit skip listNames allSchemas).schemaNames ≠ none) := by
  intro J pat limit skip listNames allSchemas
  have hacc := getApiSchemas_acc pat limit skip allSchemas
  have hmap : ((allSchemas.filter (fun e => schemaNameMatches pat e.1)).map Prod.fst).length
      = (allSchemas.filter (fun e => schemaNameMatches pat e.1)).length := by
    simp
  simp only [getApiSchemas, hacc, schemasAccOf, hmap]
  refine ⟨by trivial, by trivial, by trivial, by trivial, by trivial, ?_⟩
  by_cases hc : (listNames
      || decide ((allSchemas.filter (fun e => schemaNameMatches pat e.1)).length ≤ 20)) = true
  · simp [hc]
  · simp [hc]

/-- Five component schemas, three of which contain `Ticket`
(for the spec's `listSchemas("Ticket", limit=2, skip=1)` scenario the
matching entries in discovery order are `FaultTicket`, `TicketType`,
`ClosedTicket`). -/
def c5Schemas : List (String × Nat) :=
  [("FaultTicket", 1), ("User", 2), ("TicketType", 3), ("Site", 4),
   ("ClosedTicket", 5)]

/-- Claim C5 witness: the theorem instantiated at the spec's scenario —
`limit = 2`, `skip = 1` over `c5Schemas` returns the 2nd and 3rd matching
schemas in discovery order with `hasMore = true` (checked by evaluation on
the theorem's characterization). -/
theorem listSchemasFilterPaginate_witness :
    (getApiSchemas (some "Ticket") 2 1 false c5Schemas).schemas
        = ((c5Schemas.filter (fun e => schemaNameMatches (some "Ticket") e.1)).drop 1).take 2
  ∧ (getApiSchemas (some "Ticket") 2 1 false c5Schemas).hasMore
        = decide (1 + (getApiSchemas (some "Ticket") 2 1 false c5Schemas).returnedCount
            < (getApiSchemas (some "Ticket") 2 1 false c5Schemas).matchingCount) :=
  ⟨(listSchemasFilterPaginate Nat (some "Ticket") 2 1 false c5Schemas).1,
   (listSchemasFilterPaginate Nat (some "Ticket") 2 1 false c5Schemas).2.2.2.1⟩

/-! ## halopsa_query request body (C9)

`HaloPSAClient.executeQuery(sql)` posts `JSON.stringify([query])` where
`query = { _loadreportonly: true, sql }` (the Lean field is spelled
`loadreportonly`; the serialized JSON key is `_loadreportonly`).  The
`halopsa_query` dispatch destructures only `sql` from its argument bag
(`const { sql } = args`), so the advertised `loadReportOnly` argument is
never read. -/

/-- The body element `{_loadreportonly: true, sql}` of `executeQuery`. -/
structure ReportQuery where
  loadreportonly : Bool
  sql : String
deriving DecidableEq

/-- `executeQuery` request body: the one-element array `[query]`. -/
def executeQueryBody (sql : String) : List ReportQuery :=
  [{ loadreportonly := true, sql := sql }]

/-- The argument bag of the `halopsa_query` operation as advertised by its
input schema: required `sql`, optional `loadReportOnly`. -/
structure HaloQueryArgs where
  sql : String
  loadReportOnly : Option Bool

/-- The body POSTed for one `halopsa_query` invocation:
the dispatch reads `sql` only and calls `executeQuery(sql)`. -/
def halopsaQueryRequestBody (args : HaloQueryArgs) : List ReportQuery :=
  executeQueryBody args.sql

/-- Claim C9.  Every `halopsa_query` invocation posts exactly the
one-element array `[{_loadreportonly: true, sql}]`, and the request body is
invariant under the `loadReportOnly` argument (it is never read). -/
theorem halopsaQueryBody :
    (∀ args, halopsaQueryRequestBody args
        = [{ loadreportonly := true, sql := args.sql }])
  ∧ (∀ sql lro lro2, halopsaQueryRequestBody ⟨sql, lro⟩
        = halopsaQueryRequestBody ⟨sql, lro2⟩) :=
  ⟨fun _ => rfl, fun _ _ _ => rfl⟩

/-! ## halopsa_build_query (C10)

The `halopsa_build_query` handler is straight-line string construction:
`SELECT` column list or `*`, `FROM` table, a `WHERE` clause joining
`key IS NULL` / `key = 'escaped string'` / `key = value` conditions with
`AND`, an `ORDER BY` clause, and — when `limit` is truthy — a rebuilt
`SELECT TOP <limit>` query recomputing the identical column list, `WHERE`
clause and `ORDER BY` clause (the shared helpers below reflect that the
rebuilt clauses are character-identical).  JavaScript truthiness makes
`limit: 0`, an empty `columns` array, an empty `conditions` object and an
empty `orderBy` string all behave as absent. -/

/-- The single-quote character (code 39). -/
def sqChar : Char := Char.ofNat 39

/-- The single-quote string. -/
def sq : String := String.mk [sqChar]

/-- `value.replace(/'/g, doubled-quote)` on the character list. -/
def sqlEscapeChars : List Char → List Char
  | [] => []
  | c :: rest =>
    if c = sqChar then sqChar :: sqChar :: sqlEscapeChars rest
    else c :: sqlEscapeChars rest

/-- `value.replace(/'/g, doubled-quote)`: double every single quote. -/
def sqlEscape (v : String) : String := String.mk (sqlEscapeChars v.toList)

/-- Inverse of quote doubling: collapse each doubled quote. -/
def sqlUnescapeChars : List Char → List Char
  | [] => []
  | [c] => [c]
  | c :: d :: rest =>
    if c = sqChar then
      if d = sqChar then sqChar :: sqlUnescapeChars rest
      else c :: sqlUnescapeChars (d :: rest)
    else c :: sqlUnescapeChars (d :: rest)

/-- A WHERE-condition value: `null`, a string, or a number. -/
inductive CondVal where
  | nullv
  | str (s : String)
  | num (n : Int)
deriving DecidableEq

/-- One condition entry rendered as SQL:
`null` ⇒ `key IS NULL`; string ⇒ `key = 'escaped'`; number ⇒ `key = value`. -/
def condClause : String × CondVal → String
  | (k, CondVal.nullv) => k ++ " IS NULL"
  | (k, CondVal.str v) => k ++ " = " ++ sq ++ sqlEscape v ++ sq
  | (k, CondVal.num n) => k ++ " = " ++ toString n

/-- The argument bag of `halopsa_build_query`. -/
structure BuildQueryArgs where
  tableName : String
  columns : Option (List String)
  conditions : Option (List (String × CondVal))
  orderBy : Option String
  limit : Option Nat

/-- `columns && columns.length > 0 ? columns.join(', ') : '*'`. -/
def selectColumns : Option (List String) → String
  | some cs => if 0 < cs.length then String.intercalate ", " cs else "*"
  | none => "*"

/-- `WHERE`-clause text (empty when `conditions` is absent or empty —
JavaScript `Object.keys(conditions).length > 0`). -/
def wherePart : Option (List (String × CondVal)) → String
  | some cs =>
    if 0 < cs.length then " WHERE " ++ String.intercalate " AND " (cs.map condClause)
    else ""
  | none => ""

/-- `ORDER BY`-clause text (`if (orderBy)`: the empty string is falsy). -/
def orderPart : Option String → String
  | some o => if o == "" then "" else " ORDER BY " ++ o
  | none => ""

/-- The `halopsa_build_query` handler.  The handler first builds the plain
`SELECT` query, then — `if (limit)` — rebuilds it as `SELECT TOP <limit>`
recomputing the same column list, `WHERE` clause and `ORDER BY` clause;
both constructions produce the clauses below character-for-character. -/
def buildQuery (a : BuildQueryArgs) : String :=
  let body := selectColumns a.columns ++ " FROM " ++ a.tableName
    ++ wherePart a.conditions ++ orderPart a.orderBy
  match a.limit with
  | some l =>
    if l ≠ 0 then "SELECT TOP " ++ toString l ++ " " ++ body
    else "SELECT " ++ body
  | none => "SELECT " ++ body

lemma sqlEscapeChars_nil_iff : ∀ (l : List Char), sqlEscapeChars l = [] ↔ l = []
  | [] => by simp [sqlEscapeChars]
  | c :: rest => by
      simp only [sqlEscapeChars]
      split_ifs <;> simp

lemma sqlUnescape_escape : ∀ (l : List Char), sqlUnescapeChars (sqlEscapeChars l) = l
  | [] => rfl
  | c :: rest => by
      by_cases hc : c = sqChar
      · subst hc
        rw [sqlEscapeChars, if_pos rfl, sqlUnescapeChars, if_pos rfl]
        rw [sqlUnescape_escape rest]
        rw [if_pos rfl]
      · rw [sqlEscapeChars, if_neg hc]
        rcases hr : sqlEscapeChars rest with _ | ⟨d, rest2⟩
        · have : rest = [] := (sqlEscapeChars_nil_iff rest).mp hr
          subst this
          rfl
        · rw [sqlUnescapeChars, if_neg hc, ← hr, sqlUnescape_escape rest]

lemma sqlEscapeChars_count : ∀ (l : List Char),
    (sqlEscapeChars l).count sqChar = 2 * l.count sqChar
  | [] => rfl
  | c :: rest => by
      by_cases hc : c = sqChar
      · subst hc
        rw [sqlEscapeChars, if_pos rfl]
        simp [List.count_cons, sqlEscapeChars_count rest]
        omega
      · rw [sqlEscapeChars, if_neg hc]
        simp [List.count_cons, hc, sqlEscapeChars_count rest]

/-- Claim C10 (amended).  `halopsa_build_query` is a pure function of its
arguments (it is straight-line string construction with no I/O); quote
doubling in string condition values is a faithful injective escaping (it
round-trips, and doubles exactly the quote occurrences); `null` values
render as `IS NULL`, strings are quoted, numbers are inlined unquoted; and
for every *nonzero* supplied limit the emitted query is `SELECT TOP <limit>`
followed by the identical column list, `WHERE` clause and `ORDER BY` clause
of the query built without a limit.  (A supplied limit of `0` is falsy in
JavaScript and produces the plain query — see the counterexample.) -/
theorem buildQueryClauses :
    (∀ l : List Char, sqlUnescapeChars (sqlEscapeChars l) = l)
  ∧ (∀ l : List Char, (sqlEscapeChars l).count sqChar = 2 * l.count sqChar)
  ∧ (∀ k, condClause (k, CondVal.nullv) = k ++ " IS NULL")
  ∧ (∀ k v, condClause (k, CondVal.str v) = k ++ " = " ++ sq ++ sqlEscape v ++ sq)
  ∧ (∀ k n, condClause (k, CondVal.num n) = k ++ " = " ++ toString n)
  ∧ (∀ t cols conds ord L, L ≠ 0 →
      ∃ rest,
        buildQuery ⟨t, cols, conds, ord, none⟩ = "SELECT " ++ rest ∧
        buildQuery ⟨t, cols, conds, ord, some L⟩
          = "SELECT TOP " ++ toString L ++ " " ++ rest) := by
  refine ⟨sqlUnescape_escape, sqlEscapeChars_count, fun k => rfl, fun k v => rfl,
    fun k n => rfl, ?_⟩
  intro t cols conds ord L hL
  refine ⟨selectColumns cols ++ " FROM " ++ t ++ wherePart conds ++ orderPart ord,
    rfl, ?_⟩
  simp only [buildQuery]
  rw [if_pos hL]

/-- Claim C10 counterexample.  A supplied `limit` of `0` is falsy
(`if (limit)`), so the query is *not* regenerated as `SELECT TOP 0 ...` —
the plain query is returned, contradicting the claim for this supplied
limit value. -/
theorem buildQueryClauses_cex :
    buildQuery ⟨"FAULTS", none, none, none, some 0⟩ = "SELECT * FROM FAULTS"
  ∧ buildQuery ⟨"FAULTS", none, none, none, some 0⟩
      ≠ "SELECT TOP 0 * FROM FAULTS" := by
  constructor
  · rfl
  · decide

/-- Claim C10 witness: the amended theorem applied at `limit = 10` with a
column list, a number condition, a string condition containing a quote, and
an `ORDER BY` clause. -/
theorem buildQueryClauses_witness :
    ∃ rest,
      buildQuery ⟨"FAULTS", some ["Faultid", "Symptom"],
          some [("Status", CondVal.num 1), ("note", CondVal.str ("it" ++ sq ++ "s"))],
          some "datereported DESC", none⟩ = "SELECT " ++ rest ∧
      buildQuery ⟨"FAULTS", some ["Faultid", "Symptom"],
          some [("Status", CondVal.num 1), ("note", CondVal.str ("it" ++ sq ++ "s"))],
          some "datereported DESC", some 10⟩
        = "SELECT TOP " ++ toString 10 ++ " " ++ rest :=
  buildQueryClauses.2.2.2.2.2 "FAULTS" (some ["Faultid", "Symptom"])
    (some [("Status", CondVal.num 1), ("note", CondVal.str ("it" ++ sq ++ "s"))])
    (some "datereported DESC") 10 (by decide)

end Spec2Proof
